import Mathlib

set_option linter.unusedVariables false

/-!
Shallow embedding of the snapshot / reference-resolution / lifecycle core of
`src/context.ts` (playwright-trace-mcp).

Conventions used throughout:
* JS strings are modelled as Lean `String` (with most work done on the
  underlying `List Char`).
* JS template interpolation of a number is modelled by `decDigits`
  (standard decimal rendering).
* The async traversal in `PageSnapshot._snapshotFrame` awaits every nested
  result before returning.  Two complementary models are used.  For the
  value-level tree substitution (which nested result is spliced where,
  placeholders on failure) `visitNode` uses the program-order sequential
  composition of the awaited results; the substitutions commute, so this
  is faithful for node values.  The ORDER in which frame locators are
  pushed onto the mutable `this._frameLocators` array is NOT sequential:
  a frame's `visit` pushes the locators of all its direct iframes in one
  synchronous block (calling an async function runs it up to its first
  `await`, and the push at context.ts:518 precedes the `ariaSnapshot`
  suspension), while nested pushes wait for the corresponding
  `ariaSnapshot` responses.  That push order is modelled separately by
  `snapRun`, parameterized by an arbitrary response-arrival schedule.
* The mutable `this._frameLocators` array is modelled by explicit state
  passing of a `List Frame`.
-/

/-! ## Character-list helpers (JS string primitives) -/

/-- Model of JS `String.prototype.startsWith`: does the second list start
with the first? -/
def hasPfxL : List Char → List Char → Bool
  | [], _ => true
  | _ :: _, [] => false
  | p :: ps, c :: cs => p == c && hasPfxL ps cs

/-- Model of JS `String.prototype.replace` with a *string* pattern
(as in `value.replace('[ref=', ...)` at context.ts:534): only the first
occurrence of the pattern is replaced; if the pattern does not occur the
string is returned unchanged. -/
def replaceFirstL (pat repl : List Char) : List Char → List Char
  | [] => []
  | c :: cs =>
    if hasPfxL pat (c :: cs) then repl ++ (c :: cs).drop pat.length
    else c :: replaceFirstL pat repl cs

/-- Split a list at the first occurrence of `pat`: `some (a, b)` with the
input equal to `a ++ pat ++ b` and `pat` not occurring in any shorter
prefix than `a`. Used to state how `replaceFirstL` acts. -/
def splitFirst (pat : List Char) : List Char → Option (List Char × List Char)
  | [] => none
  | c :: cs =>
    if hasPfxL pat (c :: cs) then some ([], (c :: cs).drop pat.length)
    else (splitFirst pat cs).map (fun p => (c :: p.1, p.2))

/-- ASCII decimal digit test, the model of the regex class `\d`. -/
def isDigitCh (c : Char) : Bool := 48 ≤ c.toNat && c.toNat ≤ 57

/-- Maximal run of leading decimal digits and the remainder; the model of a
greedy `\d+` at the current match position. -/
def takeDigits : List Char → List Char × List Char
  | [] => ([], [])
  | c :: cs =>
    if isDigitCh c then
      let p := takeDigits cs
      (c :: p.1, p.2)
    else ([], c :: cs)

/-- Numeric value of a digit run, the model of `parseInt(digits, 10)`. -/
def digitsVal (ds : List Char) : Nat :=
  ds.foldl (fun a c => 10 * a + (c.toNat - 48)) 0

/-- The ASCII digit character for `n < 10`. -/
def digitChar (n : Nat) : Char := Char.ofNat (48 + n)

/-- Decimal rendering of a natural number, the model of JS number-to-string
conversion in a template literal such as `` `f${frameIndex}` ``. -/
def decDigits (n : Nat) : List Char :=
  if n < 10 then [digitChar n]
  else decDigits (n / 10) ++ [digitChar (n % 10)]
termination_by n
decreasing_by exact Nat.div_lt_self (by omega) (by omega)

/-- String form of `decDigits`. -/
def natToDec (n : Nat) : String := String.mk (decDigits n)

/-! ## The reference codec -/

/-- The characters the JS regex `.` does not match (the ECMAScript line
terminators): U+000A, U+000D, U+2028, U+2029. -/
def isLineTerm (c : Char) : Bool :=
  c = '\n' || c = '\r' || c.toNat = 8232 || c.toNat = 8233

/-- Model of `ref.match(/^f(\d+)(.*)/)` plus the assignments in
`PageSnapshot.refLocator` (context.ts:557-562): a leading `f` followed by a
maximal digit run decodes to that frame index with the rest of the line as
the local id (JS `.` does not match a line terminator, so the captured
remainder stops at the first one); otherwise frame index 0 with the
reference unchanged. -/
def decodeRefL (cs : List Char) : Nat × List Char :=
  match cs with
  | [] => (0, cs)
  | c :: rest =>
    if c = 'f' then
      let p := takeDigits rest
      if p.1.isEmpty then (0, cs)
      else (digitsVal p.1, p.2.takeWhile (fun ch => !isLineTerm ch))
    else (0, cs)

/-- String-level reference decoding. -/
def decodeRef (s : String) : Nat × String :=
  let p := decodeRefL s.data
  (p.1, String.mk p.2)

/-- Reference encoding as produced by the snapshot builder: frame 0 leaves
the frame-local id unchanged; a nested frame prepends `f` followed by the
decimal frame index (the rewrite `[ref=f${frameIndex}` at context.ts:534). -/
def encodeRef (n : Nat) (s : String) : String :=
  if n = 0 then s else "f" ++ natToDec n ++ s

/-- Model of context.ts:533-534: inside a nested frame (index > 0) a scalar
string has its first raw reference marker `[ref=` rewritten to
`[ref=f<index>`; at frame index 0 the scalar is left unchanged. -/
def rewriteRef (frameIndex : Nat) (s : String) : String :=
  if frameIndex > 0 then
    String.mk (replaceFirstL "[ref=".data ("[ref=f".data ++ decDigits frameIndex) s.data)
  else s

/-- Model of `value.match(/\[ref=(.*)\]/)?.[1]` (context.ts:536): the
leftmost start position where the marker `[ref=` is followed by a `]`
later on the same line (`.` matches no line terminator); the greedy
capture extends to the last such `]` on that line. -/
def extractRefL : List Char → Option (List Char)
  | [] => none
  | c :: cs =>
    if hasPfxL "[ref=".data (c :: cs) then
      let line := ((c :: cs).drop 5).takeWhile (fun ch => !isLineTerm ch)
      match line.reverse.dropWhile (fun ch => ch != ']') with
      | [] => extractRefL cs
      | _ :: t => some t.reverse
    else extractRefL cs

/-- String-level form of `extractRefL`. -/
def extractRef (s : String) : Option String := (extractRefL s.data).map String.mk

/-- Helper for stating the corrected C5: replace *every* (non-overlapping,
left-to-right) occurrence of the pattern. Modelled from the spec wording
"rewrite any embedded raw reference marker", for comparison with the
code's first-occurrence `replaceFirstL`. -/
def replaceAllL (pat repl : List Char) : List Char → List Char
  | [] => []
  | c :: cs =>
    if hasPfxL pat (c :: cs) && !pat.isEmpty then
      repl ++ replaceAllL pat repl (cs.drop (pat.length - 1))
    else c :: replaceAllL pat repl cs
termination_by l => l.length
decreasing_by
  · simp only [List.length_cons, List.length_drop]; omega
  · simp only [List.length_cons]; omega

/-- Modelled from the spec: the rewrite C5 claims, where *every* embedded
marker in the scalar receives the frame-index prefix. -/
def specRewriteAll (frameIndex : Nat) (s : String) : String :=
  if frameIndex > 0 then
    String.mk (replaceAllL "[ref=".data ("[ref=f".data ++ decDigits frameIndex) s.data)
  else s

/-! ## The YAML tree and frame models -/

mutual
/-- Parsed YAML node as traversed by `visit` in `_snapshotFrame`
(context.ts:522-550): string scalars, other scalars/nodes (returned
unchanged by `visit`), key/value pairs, sequences and mappings. -/
inductive YNode where
  | scalar : String → YNode
  | other : YNode
  | pair : YNode → YNode → YNode
  | seq : YNodeList → YNode
  | ymap : YNodeList → YNode

/-- Item list of a sequence or mapping. -/
inductive YNodeList where
  | nil : YNodeList
  | cons : YNode → YNodeList → YNodeList
end

mutual
/-- A frame as the automation driver presents it to `_snapshotFrame`:
whether `locator('body').ariaSnapshot(...)` succeeds on it, the parsed
tree that call returns, and the child frames reachable via
`frameLocator('aria-ref=' + ref)`, keyed by the extracted ref. -/
inductive Frame where
  | mk : Bool → YNode → FrameChildren → Frame

/-- Association list from a ref string to the nested frame it reaches. -/
inductive FrameChildren where
  | nil : FrameChildren
  | cons : String → Frame → FrameChildren → FrameChildren
end

/-- Whether `ariaSnapshot` succeeds on this frame. -/
def Frame.ok : Frame → Bool
  | .mk ok _ _ => ok

/-- The parsed tree `ariaSnapshot` returns for this frame. -/
def Frame.tree : Frame → YNode
  | .mk _ t _ => t

/-- The nested frames of this frame. -/
def Frame.children : Frame → FrameChildren
  | .mk _ _ cs => cs

/-- Resolve an extracted ref to the nested frame `frameLocator` reaches. -/
def lookupChild : FrameChildren → String → Option Frame
  | .nil, _ => none
  | .cons k f rest, r => if k = r then some f else lookupChild rest r

/-- The frame locator obtained from a ref that reaches no real frame: its
`ariaSnapshot` call throws (detached frame, cross-origin restriction). -/
def danglingFrame : Frame := .mk false .other .nil

theorem lookupChild_sizeOf (cs : FrameChildren) (r : String) (f : Frame)
    (h : lookupChild cs r = some f) : sizeOf f < sizeOf cs := by
  match cs with
  | .nil => simp [lookupChild] at h
  | .cons k g rest =>
    simp only [lookupChild] at h
    by_cases hk : k = r
    · simp only [hk, if_pos rfl] at h
      cases h
      simp only [FrameChildren.cons.sizeOf_spec]
      omega
    · simp only [if_neg hk] at h
      have := lookupChild_sizeOf rest r f h
      simp only [FrameChildren.cons.sizeOf_spec]
      omega

/-! ## The snapshot builder (`PageSnapshot._snapshotFrame`) -/

mutual
/-- Model of `PageSnapshot._snapshotFrame` (context.ts:517-553).  The state
`st` is the mutable `this._frameLocators` array: the frame is pushed first
(its index is the previous length), then `ariaSnapshot` either throws
(`Frame.ok = false`, modelled as a `none` tree) or yields the parsed tree,
which is traversed by `visitNode`.  Failures of nested snapshots are caught
inside `visitNode`, so a started capture fails only at its own
`ariaSnapshot` call. -/
def snapshotFrame (st : List Frame) (f : Frame) : Option YNode × List Frame :=
  match f with
  | .mk ok tree children =>
    let st1 := st ++ [Frame.mk ok tree children]
    if ok then
      let r := visitNode children st.length st1 tree
      (some r.1, r.2)
    else (none, st1)
termination_by (sizeOf f, 1, 0)
decreasing_by
  apply Prod.Lex.left
  simp only [Frame.mk.sizeOf_spec]
  omega

/-- Model of the inner `visit` closure of `_snapshotFrame`
(context.ts:522-550), with `Promise.all` sequentialized in program order.
A string scalar is first rewritten (frame index > 0); if the original
value starts with `"iframe "` and carries an extractable ref, the nested
frame is snapshotted and the node is replaced by a pair of the rewritten
value and either the nested tree or the literal placeholder when the
nested snapshot throws.  A ref that reaches no frame still pushes its
(failing) frame locator before the throw is caught. -/
def visitNode (children : FrameChildren) (frameIndex : Nat) (st : List Frame) :
    YNode → YNode × List Frame
  | .scalar s =>
    let s1 := rewriteRef frameIndex s
    if hasPfxL "iframe ".data s.data then
      match extractRef s with
      | some ref =>
        match hc : lookupChild children ref with
        | some c =>
          match snapshotFrame st c with
          | (some child, st2) => (.pair (.scalar s1) child, st2)
          | (none, st2) => (.pair (.scalar s1) (.scalar "<could not take iframe snapshot>"), st2)
        | none =>
          (.pair (.scalar s1) (.scalar "<could not take iframe snapshot>"), st ++ [danglingFrame])
      | none => (.scalar s1, st)
    else (.scalar s1, st)
  | .other => (.other, st)
  | .pair k v =>
    let rk := visitNode children frameIndex st k
    let rv := visitNode children frameIndex rk.2 v
    (.pair rk.1 rv.1, rv.2)
  | .seq items =>
    let r := visitList children frameIndex st items
    (.seq r.1, r.2)
  | .ymap items =>
    let r := visitList children frameIndex st items
    (.ymap r.1, r.2)
termination_by n => (sizeOf children, 0, sizeOf n)
decreasing_by
  · apply Prod.Lex.left
    exact lookupChild_sizeOf children ref c hc
  · apply Prod.Lex.right
    apply Prod.Lex.right
    simp only [YNode.pair.sizeOf_spec]
    omega
  · apply Prod.Lex.right
    apply Prod.Lex.right
    simp only [YNode.pair.sizeOf_spec]
    omega
  · apply Prod.Lex.right
    apply Prod.Lex.right
    simp only [YNode.seq.sizeOf_spec]
    omega
  · apply Prod.Lex.right
    apply Prod.Lex.right
    simp only [YNode.ymap.sizeOf_spec]
    omega

/-- Item-by-item traversal of a sequence or mapping by `visit`. -/
def visitList (children : FrameChildren) (frameIndex : Nat) (st : List Frame) :
    YNodeList → YNodeList × List Frame
  | .nil => (.nil, st)
  | .cons h t =>
    let rh := visitNode children frameIndex st h
    let rt := visitList children frameIndex rh.2 t
    (.cons rh.1 rt.1, rt.2)
termination_by n => (sizeOf children, 0, sizeOf n)
decreasing_by
  · apply Prod.Lex.right
    apply Prod.Lex.right
    simp only [YNodeList.cons.sizeOf_spec]
    omega
  · apply Prod.Lex.right
    apply Prod.Lex.right
    simp only [YNodeList.cons.sizeOf_spec]
    omega
end

/-! ## Spec-side descriptions of the frame discovery (for claim C1) -/

mutual
/-- Modelled from the spec: the depth-first, first-encountered discovery
order of frames — each frame is listed before its own nested frames
(spec: "Each recursive call allocates the next frame index and appends the
new Frame Capture to the snapshot's frame list before descending
further"). -/
def dfsFrames (f : Frame) : List Frame :=
  match f with
  | .mk ok tree children => Frame.mk ok tree children :: dfsNode children tree
termination_by (sizeOf f, 1, 0)
decreasing_by
  apply Prod.Lex.left
  simp only [Frame.mk.sizeOf_spec]
  omega

/-- Frames discovered from one node of a frame's tree, in traversal order. -/
def dfsNode (children : FrameChildren) : YNode → List Frame
  | .scalar s =>
    if hasPfxL "iframe ".data s.data then
      match extractRef s with
      | some ref =>
        match hc : lookupChild children ref with
        | some c => dfsFrames c
        | none => [danglingFrame]
      | none => []
    else []
  | .other => []
  | .pair k v => dfsNode children k ++ dfsNode children v
  | .seq items => dfsList children items
  | .ymap items => dfsList children items
termination_by n => (sizeOf children, 0, sizeOf n)
decreasing_by
  · apply Prod.Lex.left
    exact lookupChild_sizeOf children ref c hc
  · apply Prod.Lex.right
    apply Prod.Lex.right
    simp only [YNode.pair.sizeOf_spec]
    omega
  · apply Prod.Lex.right
    apply Prod.Lex.right
    simp only [YNode.pair.sizeOf_spec]
    omega
  · apply Prod.Lex.right
    apply Prod.Lex.right
    simp only [YNode.seq.sizeOf_spec]
    omega
  · apply Prod.Lex.right
    apply Prod.Lex.right
    simp only [YNode.ymap.sizeOf_spec]
    omega

/-- List version of `dfsNode`. -/
def dfsList (children : FrameChildren) : YNodeList → List Frame
  | .nil => []
  | .cons h t => dfsNode children h ++ dfsList children t
termination_by n => (sizeOf children, 0, sizeOf n)
decreasing_by
  · apply Prod.Lex.right
    apply Prod.Lex.right
    simp only [YNodeList.cons.sizeOf_spec]
    omega
  · apply Prod.Lex.right
    apply Prod.Lex.right
    simp only [YNodeList.cons.sizeOf_spec]
    omega
end

mutual
/-- Every capture in the frame tree succeeds: this frame's `ariaSnapshot`
succeeds and every iframe ref extracted anywhere in its tree reaches a
frame that recursively satisfies the same. -/
def allOk (f : Frame) : Bool :=
  match f with
  | .mk ok tree children => ok && allOkNode children tree
termination_by (sizeOf f, 1, 0)
decreasing_by
  apply Prod.Lex.left
  simp only [Frame.mk.sizeOf_spec]
  omega

/-- Node part of `allOk`. -/
def allOkNode (children : FrameChildren) : YNode → Bool
  | .scalar s =>
    if hasPfxL "iframe ".data s.data then
      match extractRef s with
      | some ref =>
        match hc : lookupChild children ref with
        | some c => allOk c
        | none => false
      | none => true
    else true
  | .other => true
  | .pair k v => allOkNode children k && allOkNode children v
  | .seq items => allOkList children items
  | .ymap items => allOkList children items
termination_by n => (sizeOf children, 0, sizeOf n)
decreasing_by
  · apply Prod.Lex.left
    exact lookupChild_sizeOf children ref c hc
  · apply Prod.Lex.right
    apply Prod.Lex.right
    simp only [YNode.pair.sizeOf_spec]
    omega
  · apply Prod.Lex.right
    apply Prod.Lex.right
    simp only [YNode.pair.sizeOf_spec]
    omega
  · apply Prod.Lex.right
    apply Prod.Lex.right
    simp only [YNode.seq.sizeOf_spec]
    omega
  · apply Prod.Lex.right
    apply Prod.Lex.right
    simp only [YNode.ymap.sizeOf_spec]
    omega

/-- List part of `allOk`. -/
def allOkList (children : FrameChildren) : YNodeList → Bool
  | .nil => true
  | .cons h t => allOkNode children h && allOkList children t
termination_by n => (sizeOf children, 0, sizeOf n)
decreasing_by
  · apply Prod.Lex.right
    apply Prod.Lex.right
    simp only [YNodeList.cons.sizeOf_spec]
    omega
  · apply Prod.Lex.right
    apply Prod.Lex.right
    simp only [YNodeList.cons.sizeOf_spec]
    omega
end

mutual
/-- The number of nested iframes discovered in a frame's tree (each
discovered nested frame counts one, plus its own nested iframes): the `N`
of claim C1. -/
def nestedCount (f : Frame) : Nat :=
  match f with
  | .mk _ tree children => countNode children tree
termination_by (sizeOf f, 1, 0)
decreasing_by
  apply Prod.Lex.left
  simp only [Frame.mk.sizeOf_spec]
  omega

/-- Node part of `nestedCount`. -/
def countNode (children : FrameChildren) : YNode → Nat
  | .scalar s =>
    if hasPfxL "iframe ".data s.data then
      match extractRef s with
      | some ref =>
        match hc : lookupChild children ref with
        | some c => 1 + nestedCount c
        | none => 1
      | none => 0
    else 0
  | .other => 0
  | .pair k v => countNode children k + countNode children v
  | .seq items => countList children items
  | .ymap items => countList children items
termination_by n => (sizeOf children, 0, sizeOf n)
decreasing_by
  · apply Prod.Lex.left
    exact lookupChild_sizeOf children ref c hc
  · apply Prod.Lex.right
    apply Prod.Lex.right
    simp only [YNode.pair.sizeOf_spec]
    omega
  · apply Prod.Lex.right
    apply Prod.Lex.right
    simp only [YNode.pair.sizeOf_spec]
    omega
  · apply Prod.Lex.right
    apply Prod.Lex.right
    simp only [YNode.seq.sizeOf_spec]
    omega
  · apply Prod.Lex.right
    apply Prod.Lex.right
    simp only [YNode.ymap.sizeOf_spec]
    omega

/-- List part of `nestedCount`. -/
def countList (children : FrameChildren) : YNodeList → Nat
  | .nil => 0
  | .cons h t => countNode children h + countList children t
termination_by n => (sizeOf children, 0, sizeOf n)
decreasing_by
  · apply Prod.Lex.right
    apply Prod.Lex.right
    simp only [YNodeList.cons.sizeOf_spec]
    omega
  · apply Prod.Lex.right
    apply Prod.Lex.right
    simp only [YNodeList.cons.sizeOf_spec]
    omega
end

/-! ## Reference resolution (`PageSnapshot.refLocator`, `Tab.snapshotOrDie`) -/

/-- Model of `PageSnapshot.refLocator` (context.ts:555-568) over the frame
list built by `snapshotFrame`.  The reference is decoded (`^f(\d+)(.*)`;
no match means frame 0 with the reference unchanged), the frame locator at
the decoded index is looked up (`undefined` past the end of the array,
modelled by `getElem?`), and a missing frame throws; otherwise the result
models `frame.locator('aria-ref=' + ref)`. -/
def refLocator (frames : List Frame) (r : String) : Except String (Frame × String) :=
  let d := decodeRefL r.data
  match frames[d.1]? with
  | some fr => .ok (fr, "aria-ref=" ++ String.mk d.2)
  | none => .error "Frame does not exist. Provide ref from the most current snapshot."

/-- Model of `Tab.snapshotOrDie` (context.ts:416-420): the tab's stored
snapshot frame list, or a throw when no snapshot has been captured. -/
def snapshotOrDie (snap : Option (List Frame)) : Except String (List Frame) :=
  match snap with
  | none => .error "No snapshot available"
  | some s => .ok s

/-! ## Modal states and waits -/

/-- The `type` field of a `ModalState` (`'dialog' | 'fileChooser'`). -/
inductive MType where
  | dialog
  | fileChooser
deriving DecidableEq, Repr

/-- One entry of `Context._modalStates`: the modal state's type and
description together with the owning tab (modelled by a tab id). -/
structure MState where
  mtype : MType
  description : String
  tabId : Nat
deriving DecidableEq, Repr

/-- Model of `Context._javaScriptBlocked` (context.ts:234-236): some active
modal state has type `'dialog'`. -/
def jsBlocked (states : List MState) : Bool :=
  states.any (fun state => state.mtype = MType.dialog)

/-- The wait a call to `Context.waitForTimeout` performs: a script-side
`setTimeout` evaluated in the page, or a real-time wait in the server. -/
inductive WaitAction where
  | scriptTimeout (ms : Nat)
  | realTimeout (ms : Nat)
deriving DecidableEq, Repr

/-- Model of `Context.waitForTimeout` (context.ts:210-215): with a current
tab and scripts not blocked, an in-page `setTimeout(f, 1000)` (the
caller-supplied `time` is not used); otherwise a real wait of `time`. -/
def waitForTimeout (hasCurrentTab : Bool) (states : List MState) (time : Nat) : WaitAction :=
  if hasCurrentTab && !(jsBlocked states) then WaitAction.scriptTimeout 1000
  else WaitAction.realTimeout time

/-! ## The tool-run lifecycle (`Context.run` and the modal-dialog race) -/

/-- One tool of `Context.tools`, as consulted by `modalStatesMarkdown`. -/
structure ToolM where
  name : String
  clears : Option MType
deriving DecidableEq, Repr

/-- Model of `Context.modalStatesMarkdown` (context.ts:77-84): a header line
followed by one line per active modal state naming the tool that clears
it (JS renders a missing tool name as the string `undefined`). -/
def modalStatesMarkdown (tools : List ToolM) (states : List MState) : List String :=
  "### Modal state" :: states.map (fun state =>
    "- [" ++ state.description ++ "]: can be handled by the \"" ++
      (((tools.find? (fun tool => tool.clears = some state.mtype)).map ToolM.name).getD "undefined")
      ++ "\" tool")

/-- When, relative to one `Context.run` call, the page fires a `dialog`
event (running `Context.dialogShown`): strictly before the action settles
(resolving the armed signal and winning the race); after the action
settles but before the capture-snapshot check of the `finally` clause
(e.g. during the network-quiescence wait of `waitForCompletion`); after
that check but before the response is assembled (e.g. during the snapshot
capture or the tab-title awaits of context.ts:166-196); after the whole
call has returned; or not at all. -/
inductive DialogTiming where
  | beforeCompletion
  | afterActionBeforeCapture
  | afterCaptureBeforeResponse
  | afterCompletion
  | never
deriving DecidableEq, Repr

/-- The inputs of one `Context.run` invocation: what the tool handler
returned (context.ts:137-138) and how the environment behaves during the
call (whether the action throws, the content it would produce, and the
dialog timing). -/
structure RunInput where
  hasAction : Bool
  actionThrows : Bool
  actionContent : List Nat
  waitForNetwork : Bool
  captureSnapshot : Bool
  hasResultOverride : Bool
  dialogTiming : DialogTiming
  dialogDescription : String
  dialogTabId : Nat
deriving DecidableEq, Repr

/-- The session state `Context.run` starts from. -/
structure SessionS where
  tools : List ToolM
  modalStates : List MState
  hasCurrentTab : Bool
deriving DecidableEq, Repr

/-- Observable steps of one `Context.run` call, in order. -/
inductive RunEvent where
  | actionFinished
  | snapshotCapture
deriving DecidableEq, Repr

/-- The response `Context.run` assembles: the action's content items
followed by the synthesized text (of which we track the modal-state
section; context.ts:166-207). -/
structure RespModel where
  actionItems : List Nat
  modalLines : List String
deriving DecidableEq, Repr

/-- The outcome of one `Context.run` call: its response (`none` when the
action's exception propagates out of the call), the ordered observable
events, the modal states at the time of the capture-snapshot check, and
the modal states after the call (including a dialog that fired after
completion). -/
structure RunOutcome where
  response : Option RespModel
  events : List RunEvent
  statesAtCapture : List MState
  finalModalStates : List MState
deriving DecidableEq, Repr

/-- Model of `Context.run` (context.ts:135-208) together with
`Context._raceAgainstModalDialogs` (217-232) and `Context.dialogShown`
(238-245).  A `resultOverride` returns immediately; with no current tab a
guidance message is returned.  Otherwise the action is raced against the
armed `dialogShown` signal: a dialog firing before the action settles
pushes a dialog modal state and leaves the race's `result` undefined; an
action that settles (successfully or by throwing) produces the
`actionFinished` event.  In the `finally` clause a snapshot is captured
exactly when `captureSnapshot` is set and scripts are not blocked by a
dialog modal state at that moment — a dialog that fired at any earlier
point of the call, including after the action settled, is visible to the
check.  A thrown action error then propagates (no response); otherwise
the `modalStates().length` check sees every dialog that fired before
response assembly and short-circuits to the modal-state section without
the action's content items. -/
def runModel (inp : RunInput) (s : SessionS) : RunOutcome :=
  if inp.hasResultOverride then
    { response := some { actionItems := [], modalLines := [] }, events := [],
      statesAtCapture := s.modalStates, finalModalStates := s.modalStates }
  else if !s.hasCurrentTab then
    { response := some { actionItems := [], modalLines := [] }, events := [],
      statesAtCapture := s.modalStates, finalModalStates := s.modalStates }
  else
    let dialogSt : MState :=
      { mtype := MType.dialog, description := inp.dialogDescription, tabId := inp.dialogTabId }
    let dialogDuring : Bool := inp.dialogTiming = DialogTiming.beforeCompletion
    let actionDone := inp.hasAction && !dialogDuring
    let threw := actionDone && inp.actionThrows
    let actionResult : Option (List Nat) :=
      if actionDone && !inp.actionThrows then some inp.actionContent else none
    let events1 : List RunEvent := if actionDone then [RunEvent.actionFinished] else []
    let statesAtCapture :=
      if dialogDuring || inp.dialogTiming = DialogTiming.afterActionBeforeCapture
      then s.modalStates ++ [dialogSt] else s.modalStates
    let doCapture := inp.captureSnapshot && !(jsBlocked statesAtCapture)
    let events := events1 ++ (if doCapture then [RunEvent.snapshotCapture] else [])
    let statesAtResponse :=
      if dialogDuring || inp.dialogTiming = DialogTiming.afterActionBeforeCapture
        || inp.dialogTiming = DialogTiming.afterCaptureBeforeResponse
      then s.modalStates ++ [dialogSt] else s.modalStates
    let finalStates :=
      if inp.dialogTiming = DialogTiming.never then s.modalStates
      else s.modalStates ++ [dialogSt]
    if threw then
      { response := none, events := events,
        statesAtCapture := statesAtCapture, finalModalStates := finalStates }
    else if statesAtResponse.isEmpty then
      { response := some { actionItems := actionResult.getD [], modalLines := [] },
        events := events, statesAtCapture := statesAtCapture, finalModalStates := finalStates }
    else
      { response := some { actionItems := [],
                           modalLines := modalStatesMarkdown s.tools statesAtResponse },
        events := events, statesAtCapture := statesAtCapture, finalModalStates := finalStates }

/-! ## Tab list and modal-state bookkeeping (`Context._onPageClosed` etc.) -/

/-- The session state touched by tab management: the ordered open-tab list
(tab ids), the current-tab selection, the active modal states, and whether
the underlying browser context is still open. -/
structure SessionTabs where
  tabs : List Nat
  currentTab : Option Nat
  modalStates : List MState
  browserContextOpen : Bool
deriving DecidableEq, Repr

/-- Model of JS `Array.prototype.indexOf` restricted to found/not-found:
the index of the first occurrence, if any. -/
def idxOf (l : List Nat) (t : Nat) : Option Nat :=
  match l with
  | [] => none
  | x :: xs => if x = t then some 0 else (idxOf xs t).map (· + 1)

/-- Model of `Context._onPageClosed` (context.ts:254-265): the closed tab's
modal states are dropped; an unknown tab changes nothing else; otherwise
the tab is spliced out, the current tab (when it was the closed one) is
re-pointed at `tabs[min(index, tabs.length - 1)]` of the updated list
(`undefined` when no tab remains), and an emptied tab list closes the
browser context. -/
def onPageClosed (c : SessionTabs) (t : Nat) : SessionTabs :=
  let ms := c.modalStates.filter (fun state => state.tabId != t)
  match idxOf c.tabs t with
  | none => { c with modalStates := ms }
  | some i =>
    let tabs2 := c.tabs.eraseIdx i
    let cur2 := if c.currentTab = some t then
        (if tabs2.isEmpty then none else tabs2[min i (tabs2.length - 1)]?)
      else c.currentTab
    { c with modalStates := ms, tabs := tabs2, currentTab := cur2,
             browserContextOpen := c.browserContextOpen && !tabs2.isEmpty }

/-- Model of `Context._onPageCreated` (context.ts:247-252): the new tab is
pushed and becomes current when no current tab exists. -/
def onPageCreated (c : SessionTabs) (t : Nat) : SessionTabs :=
  { c with tabs := c.tabs ++ [t],
           currentTab := if c.currentTab = none then some t else c.currentTab }

/-- Model of `Context.setModalState` (context.ts:69-71): the modal state,
tagged with its owning tab, is appended. -/
def setModalState (c : SessionTabs) (st : MState) : SessionTabs :=
  { c with modalStates := c.modalStates ++ [st] }

/-- Model of `Context.clearModalState` (context.ts:73-75); JS filters by
object identity, modelled here by structural equality. -/
def clearModalState (c : SessionTabs) (st : MState) : SessionTabs :=
  { c with modalStates := c.modalStates.filter (fun state => state != st) }

/-- The invariant of claim C10: every active modal state's owning tab is a
member of the open-tabs list. -/
def modalTabsOpen (c : SessionTabs) : Prop :=
  ∀ m ∈ c.modalStates, m.tabId ∈ c.tabs

/-! ## Claim C4: out-of-range resolution fails -/

/-- C4: for every reference whose decoded frame index lies outside the
current snapshot's frame list, `refLocator` fails with the "frame does not
exist" error rather than returning a locator; and resolving any reference
on a tab with no captured snapshot (`snapshotOrDie` of `none`) fails. -/
theorem refLocator_out_of_range (frames : List Frame) (r : String)
    (h : frames.length ≤ (decodeRefL r.data).1) :
    refLocator frames r
      = .error "Frame does not exist. Provide ref from the most current snapshot."
    ∧ snapshotOrDie none = .error "No snapshot available" := by
  refine ⟨?_, rfl⟩
  have hnone : frames[(decodeRefL r.data).1]? = none := List.getElem?_eq_none h
  simp [refLocator, hnone]

theorem refLocator_out_of_range_witness :
    refLocator [] "e5"
      = .error "Frame does not exist. Provide ref from the most current snapshot."
    ∧ snapshotOrDie none = .error "No snapshot available" :=
  refLocator_out_of_range [] "e5" (by decide)

/-! ## Claim C9: the fixed one-second script wait -/

/-- C9: whenever a current tab exists and no dialog-type modal state is
active, `waitForTimeout` performs the script-side wait of a fixed 1000
milliseconds regardless of the caller-supplied `time`; otherwise it
performs a real-time wait of exactly `time` milliseconds. -/
theorem waitForTimeout_fixed_delay (hasTab : Bool) (states : List MState) (time : Nat) :
    (hasTab = true → jsBlocked states = false →
       waitForTimeout hasTab states time = WaitAction.scriptTimeout 1000)
    ∧ (hasTab = false ∨ jsBlocked states = true →
       waitForTimeout hasTab states time = WaitAction.realTimeout time) := by
  constructor
  · intro h1 h2
    simp [waitForTimeout, h1, h2]
  · rintro (h | h) <;> simp [waitForTimeout, h]

theorem waitForTimeout_fixed_delay_witness :
    waitForTimeout true [] 250 = WaitAction.scriptTimeout 1000
    ∧ waitForTimeout false [] 250 = WaitAction.realTimeout 250 :=
  ⟨(waitForTimeout_fixed_delay true [] 250).1 rfl rfl,
   (waitForTimeout_fixed_delay false [] 250).2 (Or.inl rfl)⟩

/-! ## Claim C8: current-tab promotion on close -/

theorem idxOf_spec (l : List Nat) (t : Nat) :
    ∀ i, idxOf l t = some i → i < l.length ∧ l[i]? = some t := by
  induction l with
  | nil => intro i h; simp [idxOf] at h
  | cons x xs ih =>
    intro i h
    simp only [idxOf] at h
    by_cases hx : x = t
    · simp only [if_pos hx, Option.some.injEq] at h
      subst h
      simp [hx]
    · simp only [if_neg hx, Option.map_eq_some'] at h
      obtain ⟨j, hj, hji⟩ := h
      obtain ⟨hjlt, hjget⟩ := ih j hj
      subst hji
      constructor
      · simpa using Nat.succ_lt_succ hjlt
      · simpa using hjget

/-- C8: when the page of the current tab closes while at least one other
tab remains, exactly one tab becomes current, namely the entry at index
`min(closedIndex, tabCount - 1)` of the updated tab list; when a
non-current tab's page closes, the current tab is unchanged. -/
theorem onPageClosed_current_promotion (c : SessionTabs) (t i : Nat)
    (hidx : idxOf c.tabs t = some i) :
    (c.currentTab = some t → 2 ≤ c.tabs.length →
       ((onPageClosed c t).currentTab).isSome = true
       ∧ (onPageClosed c t).currentTab
           = (onPageClosed c t).tabs[min i ((onPageClosed c t).tabs.length - 1)]?)
    ∧ (∀ u, c.currentTab = some u → u ≠ t → (onPageClosed c t).currentTab = some u) := by
  obtain ⟨hlt, hget⟩ := idxOf_spec c.tabs t i hidx
  have hlen : (c.tabs.eraseIdx i).length = c.tabs.length - 1 := by
    rw [List.length_eraseIdx]
    simp [hlt]
  constructor
  · intro hcur hlen2
    have hne : (c.tabs.eraseIdx i).isEmpty = false := by
      rw [List.isEmpty_eq_false_iff_exists_mem]
      have : 0 < (c.tabs.eraseIdx i).length := by omega
      obtain ⟨a, ha⟩ := List.exists_mem_of_length_pos this
      exact ⟨a, ha⟩
    have hminlt : min i ((c.tabs.eraseIdx i).length - 1) < (c.tabs.eraseIdx i).length := by
      omega
    constructor
    · simp only [onPageClosed, hidx, hcur, if_pos rfl, hne, Bool.false_eq_true, if_neg]
      simp [List.getElem?_eq_getElem hminlt]
    · simp only [onPageClosed, hidx, hcur, if_pos rfl, hne, Bool.false_eq_true, if_neg]
      simp
  · intro u hcur hne
    have hct : ¬(c.currentTab = some t) := by
      rw [hcur]
      simp [hne]
    simp only [onPageClosed, hidx, if_neg hct]
    exact hcur

/-- Example session used to witness the modal-invariant claim. -/
def sessionEx2 : SessionTabs :=
  { tabs := [10, 20], currentTab := some 10,
    modalStates := [{ mtype := MType.fileChooser, description := "File chooser", tabId := 20 }],
    browserContextOpen := true }

/-- Example session used to witness the tab-close claims. -/
def sessionEx : SessionTabs :=
  { tabs := [10, 20, 30], currentTab := some 20,
    modalStates := [{ mtype := MType.fileChooser, description := "File chooser", tabId := 10 }],
    browserContextOpen := true }

theorem onPageClosed_current_promotion_witness :
    (sessionEx.currentTab = some 20 → 2 ≤ sessionEx.tabs.length →
       ((onPageClosed sessionEx 20).currentTab).isSome = true
       ∧ (onPageClosed sessionEx 20).currentTab
           = (onPageClosed sessionEx 20).tabs[min 1
               ((onPageClosed sessionEx 20).tabs.length - 1)]?)
    ∧ (∀ u, sessionEx.currentTab = some u → u ≠ 20 →
        (onPageClosed sessionEx 20).currentTab = some u) :=
  onPageClosed_current_promotion sessionEx 20 1 (by decide)

/-! ## Claim C10: modal states only for open tabs -/

theorem mem_eraseIdx_of_ne (l : List Nat) (k : Nat) (u t : Nat)
    (hget : l[k]? = some t) (hu : u ∈ l) (hne : u ≠ t) : u ∈ l.eraseIdx k := by
  rw [List.mem_eraseIdx_iff_getElem?]
  obtain ⟨j, hj⟩ := List.mem_iff_getElem?.mp hu
  refine ⟨j, ?_, hj⟩
  intro hjk
  subst hjk
  rw [hj] at hget
  exact hne (by injection hget)

/-- C10: after a tab's page closes, no modal state tagged to that tab
remains; and the session operations preserve the invariant that each
active modal state's owning tab is in the open-tabs list (`setModalState`
is invoked by page events of an open tab, hence the membership
hypothesis on the pushed state). -/
theorem modal_states_tab_invariant (c : SessionTabs) (t : Nat) (st : MState)
    (hopen : st.tabId ∈ c.tabs) :
    (∀ m ∈ (onPageClosed c t).modalStates, m.tabId ≠ t)
    ∧ (modalTabsOpen c → modalTabsOpen (onPageClosed c t))
    ∧ (modalTabsOpen c → modalTabsOpen (onPageCreated c t))
    ∧ (modalTabsOpen c → modalTabsOpen (setModalState c st))
    ∧ (modalTabsOpen c → modalTabsOpen (clearModalState c st)) := by
  have hfilter : ∀ m, m ∈ c.modalStates.filter (fun state => state.tabId != t) →
      m ∈ c.modalStates ∧ m.tabId ≠ t := by
    intro m hm
    have := List.mem_filter.mp hm
    refine ⟨this.1, ?_⟩
    simpa using this.2
  refine ⟨?_, ?_, ?_, ?_, ?_⟩
  · intro m hm
    rcases h : idxOf c.tabs t with _ | i
    · rw [onPageClosed, h] at hm
      exact (hfilter m hm).2
    · rw [onPageClosed, h] at hm
      exact (hfilter m hm).2
  · intro hinv m hm
    rcases h : idxOf c.tabs t with _ | i
    · rw [onPageClosed, h] at hm ⊢
      exact hinv m (hfilter m hm).1
    · obtain ⟨hlt, hget⟩ := idxOf_spec c.tabs t i h
      rw [onPageClosed, h] at hm ⊢
      obtain ⟨hmem, hne⟩ := hfilter m hm
      exact mem_eraseIdx_of_ne c.tabs i m.tabId t hget (hinv m hmem) hne
  · intro hinv m hm
    rw [onPageCreated] at hm ⊢
    have := hinv m hm
    simp only [List.mem_append]
    exact Or.inl this
  · intro hinv m hm
    rw [setModalState] at hm ⊢
    rcases List.mem_append.mp hm with h | h
    · exact hinv m h
    · have : m = st := by simpa using h
      subst this
      exact hopen
  · intro hinv m hm
    rw [clearModalState] at hm ⊢
    exact hinv m (List.mem_of_mem_filter hm)

theorem modal_states_tab_invariant_witness :
    (∀ m ∈ (onPageClosed sessionEx2 20).modalStates, m.tabId ≠ 20)
    ∧ (modalTabsOpen sessionEx2 → modalTabsOpen (onPageClosed sessionEx2 20))
    ∧ (modalTabsOpen sessionEx2 → modalTabsOpen (onPageCreated sessionEx2 20))
    ∧ (modalTabsOpen sessionEx2 → modalTabsOpen (setModalState sessionEx2
        { mtype := MType.dialog, description := "d", tabId := 10 }))
    ∧ (modalTabsOpen sessionEx2 → modalTabsOpen (clearModalState sessionEx2
        { mtype := MType.dialog, description := "d", tabId := 10 })) :=
  modal_states_tab_invariant sessionEx2 20
    { mtype := MType.dialog, description := "d", tabId := 10 } (by decide)

/-! ## Claim C2: the reference codec round-trip -/

theorem digitChar_toNat (k : Nat) (h : k < 10) : (digitChar k).toNat = 48 + k := by
  interval_cases k <;> decide

theorem isDigitCh_digitChar (k : Nat) (h : k < 10) : isDigitCh (digitChar k) = true := by
  interval_cases k <;> decide

theorem decDigits_digits (n : Nat) : ∀ c ∈ decDigits n, isDigitCh c = true := by
  induction n using Nat.strong_induction_on with
  | _ n ih =>
    rw [decDigits]
    by_cases h : n < 10
    · simp only [if_pos h]
      intro c hc
      have : c = digitChar n := by simpa using hc
      subst this
      exact isDigitCh_digitChar n h
    · simp only [if_neg h]
      intro c hc
      rcases List.mem_append.mp hc with h1 | h1
      · exact ih (n / 10) (Nat.div_lt_self (by omega) (by omega)) c h1
      · have : c = digitChar (n % 10) := by simpa using h1
        subst this
        exact isDigitCh_digitChar (n % 10) (Nat.mod_lt _ (by omega))

theorem decDigits_ne_nil (n : Nat) : decDigits n ≠ [] := by
  rw [decDigits]
  by_cases h : n < 10
  · simp [h]
  · simp [h]

theorem digitsVal_concat (ds : List Char) (c : Char) :
    digitsVal (ds ++ [c]) = 10 * digitsVal ds + (c.toNat - 48) := by
  simp [digitsVal, List.foldl_append]

theorem digitsVal_decDigits (n : Nat) : digitsVal (decDigits n) = n := by
  induction n using Nat.strong_induction_on with
  | _ n ih =>
    rw [decDigits]
    by_cases h : n < 10
    · simp only [if_pos h]
      simp [digitsVal, digitChar_toNat n h]
    · simp only [if_neg h]
      rw [digitsVal_concat]
      rw [ih (n / 10) (Nat.div_lt_self (by omega) (by omega))]
      rw [digitChar_toNat (n % 10) (Nat.mod_lt _ (by omega))]
      omega

/-- Is the head of the character list an ASCII digit? -/
def headDigitL (cs : List Char) : Bool :=
  match cs with
  | [] => false
  | c :: _ => isDigitCh c

/-- Does the string start with `f` followed by a digit (i.e. does the
decoder see a frame prefix in it)? -/
def headFDigit (s : String) : Bool :=
  match s.data with
  | [] => false
  | c :: rest => c = 'f' && headDigitL rest

theorem takeDigits_append (ds rest : List Char)
    (hds : ∀ c ∈ ds, isDigitCh c = true) (hrest : headDigitL rest = false) :
    takeDigits (ds ++ rest) = (ds, rest) := by
  induction ds with
  | nil =>
    simp only [List.nil_append]
    match rest, hrest with
    | [], _ => rfl
    | c :: cs, hr =>
      have hc : isDigitCh c = false := by simpa [headDigitL] using hr
      simp [takeDigits, hc]
  | cons d ds ih =>
    have hd : isDigitCh d = true := hds d (by simp)
    have ih' := ih (fun c hc => hds c (by simp [hc]))
    simp [takeDigits, hd, ih']

theorem decodeRefL_no_prefix (cs : List Char)
    (h : ∀ c rest, cs = c :: rest → c = 'f' → headDigitL rest = false) :
    decodeRefL cs = (0, cs) := by
  match cs with
  | [] => rfl
  | c :: rest =>
    rw [decodeRefL]
    by_cases hc : c = 'f'
    · have hd := h c rest rfl hc
      have hemp : ((takeDigits rest).1).isEmpty = true := by
        match rest, hd with
        | [], _ => rfl
        | r :: rs, hd =>
          have hr : isDigitCh r = false := by simpa [headDigitL] using hd
          simp [takeDigits, hr]
      simp [hc, hemp]
    · simp [hc]

/-- C2 fails as literally stated: encoding the pair `(0, "f1x")` yields the
reference `"f1x"`, which the decoder reads as frame prefix `f1`, decoding
to `(1, "x")` rather than `(0, "f1x")`. -/
theorem decode_encode_counterexample :
    decodeRef (encodeRef 0 "f1x") ≠ (0, "f1x") := by decide

/-- A constructed string with the same character data is the same string. -/
theorem mk_data (s : String) : String.mk s.data = s := rfl

/-- C2 amended: decoding the reference produced by encoding `(n, s)` yields
`(n, s)` provided the frame-local id does not itself read as a frame
prefix: for `n = 0` the id must not start with `f` followed by a digit,
and for `n > 0` the id must not start with a digit and must not contain a
line terminator (U+000A, U+000D, U+2028, U+2029 — the characters the
decoder's `(.*)` capture stops at). -/
theorem decode_encode_roundtrip (n : Nat) (s : String)
    (h0 : n = 0 → headFDigit s = false)
    (h1 : 0 < n → headDigitL s.data = false ∧ s.data.all (fun c => !isLineTerm c) = true) :
    decodeRef (encodeRef n s) = (n, s) := by
  by_cases hn : n = 0
  · subst hn
    have h0' := h0 rfl
    have hdec : decodeRefL s.data = (0, s.data) := by
      apply decodeRefL_no_prefix
      intro c rest hcs hc
      rw [headFDigit, hcs] at h0'
      simp only [hc] at h0'
      simpa using h0'
    simp [encodeRef, decodeRef, hdec, mk_data]
  · obtain ⟨hhd, hnl⟩ := h1 (by omega)
    have hdata : ("f" ++ natToDec n ++ s).data = 'f' :: (decDigits n ++ s.data) := by
      rw [String.data_append, String.data_append]
      rfl
    have hemp : (decDigits n).isEmpty = false := by
      cases hd : decDigits n with
      | nil => exact absurd hd (decDigits_ne_nil n)
      | cons a l => rfl
    have htw : s.data.takeWhile (fun ch => !isLineTerm ch) = s.data := by
      rw [List.takeWhile_eq_self_iff]
      exact fun x hx => (List.all_eq_true.mp hnl) x hx
    have hdec : decodeRefL ('f' :: (decDigits n ++ s.data)) = (n, s.data) := by
      rw [decodeRefL]
      rw [takeDigits_append (decDigits n) s.data (decDigits_digits n) hhd]
      simp [hemp, digitsVal_decDigits, htw]
    simp [encodeRef, hn, decodeRef, hdata, hdec, mk_data]

theorem decode_encode_roundtrip_witness :
    decodeRef (encodeRef 3 "e12") = (3, "e12") :=
  decode_encode_roundtrip 3 "e12" (by decide) (by decide)

/-! ## Claim C5: the frame-index rewrite of reference markers -/

theorem splitFirst_replaceFirst (pat repl : List Char) :
    ∀ (cs a b : List Char), splitFirst pat cs = some (a, b) →
      replaceFirstL pat repl cs = a ++ repl ++ b := by
  intro cs
  induction cs with
  | nil => intro a b h; simp [splitFirst] at h
  | cons c cs ih =>
    intro a b h
    rw [splitFirst] at h
    rw [replaceFirstL]
    by_cases hp : hasPfxL pat (c :: cs) = true
    · simp only [hp, if_true, Option.some.injEq, Prod.mk.injEq] at h
      simp only [hp, if_true]
      rw [← h.1, ← h.2]
      simp
    · have hp' : hasPfxL pat (c :: cs) = false := by
        cases hq : hasPfxL pat (c :: cs) with
        | true => exact absurd hq hp
        | false => rfl
      simp only [hp', Bool.false_eq_true, if_false, Option.map_eq_some'] at h
      obtain ⟨⟨a', b'⟩, hsp, hab⟩ := h
      simp only [Prod.mk.injEq] at hab
      simp only [hp', Bool.false_eq_true, if_false]
      rw [ih a' b' hsp, ← hab.1, ← hab.2]
      simp

/-- Evaluation of the decimal rendering at 1, used by the concrete
counterexample. -/
theorem decDigits_one : decDigits 1 = ['1'] := by
  rw [decDigits]
  decide

/-- C5 fails as literally stated: inside a nested frame only the FIRST
`[ref=` marker of a scalar string is rewritten.  On a scalar carrying two
markers the second stays raw, so the scalar `visit` produces differs from
the rewrite-every-marker transform the claim describes. -/
theorem rewrite_markers_counterexample :
    (visitNode FrameChildren.nil 1 [] (YNode.scalar "text [ref=e2] more [ref=e3]")).1
      = YNode.scalar (rewriteRef 1 "text [ref=e2] more [ref=e3]")
    ∧ rewriteRef 1 "text [ref=e2] more [ref=e3]" = "text [ref=f1e2] more [ref=e3]"
    ∧ rewriteRef 1 "text [ref=e2] more [ref=e3]"
        ≠ specRewriteAll 1 "text [ref=e2] more [ref=e3]" := by
  have hrw : rewriteRef 1 "text [ref=e2] more [ref=e3]" = "text [ref=f1e2] more [ref=e3]" := by
    rw [rewriteRef, decDigits_one]
    decide
  have hall : specRewriteAll 1 "text [ref=e2] more [ref=e3]"
      = "text [ref=f1e2] more [ref=f1e3]" := by
    rw [specRewriteAll, decDigits_one]
    simp only [gt_iff_lt, Nat.lt_irrefl, if_pos (by omega : (0:Nat) < 1)]
    simp +decide [replaceAllL]
  refine ⟨?_, hrw, ?_⟩
  · have hpfx : hasPfxL "iframe ".data "text [ref=e2] more [ref=e3]".data = false := by decide
    simp [visitNode, hpfx]
  · rw [hrw, hall]
    decide

/-- C5 amended: during snapshot construction, for every frame with index
greater than 0, each scalar string has exactly its FIRST embedded raw
reference marker `[ref=` rewritten to `[ref=f<index>`; the part of the
string before that marker and everything after it (including any further
markers) are kept unchanged. -/
theorem rewrite_first_marker (fi : Nat) (s : String) (a b : List Char)
    (hfi : 0 < fi) (hsplit : splitFirst "[ref=".data s.data = some (a, b)) :
    rewriteRef fi s = String.mk (a ++ ("[ref=f".data ++ decDigits fi) ++ b) := by
  rw [rewriteRef]
  simp only [gt_iff_lt, if_pos hfi]
  rw [splitFirst_replaceFirst "[ref=".data ("[ref=f".data ++ decDigits fi) s.data a b hsplit]

theorem rewrite_first_marker_witness :
    rewriteRef 2 "button [ref=e9]"
      = String.mk ("button ".data ++ ("[ref=f".data ++ decDigits 2) ++ "e9]".data) :=
  rewrite_first_marker 2 "button [ref=e9]" "button ".data "e9]".data (by omega) (by decide)

/-! ## Claim C3: failing nested snapshots degrade to the placeholder -/

/-- C3: when a nested iframe's snapshot attempt throws, the parent frame's
capture still succeeds, and the node corresponding to that iframe is
replaced by a pair whose value is exactly the literal string
`"<could not take iframe snapshot>"`. -/
theorem iframe_failure_placeholder (children : FrameChildren) (fi : Nat) (st : List Frame)
    (s ref : String) (c : Frame) (tree : YNode)
    (h1 : hasPfxL "iframe ".data s.data = true)
    (h2 : extractRef s = some ref)
    (h3 : lookupChild children ref = some c)
    (h4 : c.ok = false) :
    (visitNode children fi st (YNode.scalar s)).1
      = YNode.pair (YNode.scalar (rewriteRef fi s))
          (YNode.scalar "<could not take iframe snapshot>")
    ∧ (snapshotFrame st (Frame.mk true tree children)).1.isSome = true := by
  obtain ⟨okc, tc, chc⟩ := c
  have hok : okc = false := by simpa [Frame.ok] using h4
  subst hok
  have hsnap : snapshotFrame st (Frame.mk false tc chc)
      = (none, st ++ [Frame.mk false tc chc]) := by
    rw [snapshotFrame]
    simp
  constructor
  · simp only [visitNode, h1, h2]
    split
    · rw [h3]
      simp [hsnap]
    · next hcond => exact absurd trivial hcond
  · rw [snapshotFrame]
    simp

/-- Concrete inputs witnessing C3: a parent whose tree is a single iframe
scalar whose ref reaches a frame on which `ariaSnapshot` throws. -/
def failingChildren : FrameChildren :=
  FrameChildren.cons "e7" (Frame.mk false YNode.other FrameChildren.nil) FrameChildren.nil

theorem iframe_failure_placeholder_witness :
    (visitNode failingChildren 1 [] (YNode.scalar "iframe [ref=e7]")).1
      = YNode.pair (YNode.scalar (rewriteRef 1 "iframe [ref=e7]"))
          (YNode.scalar "<could not take iframe snapshot>")
    ∧ (snapshotFrame [] (Frame.mk true (YNode.scalar "iframe [ref=e7]") failingChildren)).1.isSome
        = true :=
  iframe_failure_placeholder failingChildren 1 []
    "iframe [ref=e7]" "e7" (Frame.mk false YNode.other FrameChildren.nil)
    (YNode.scalar "iframe [ref=e7]")
    (by decide) (by decide) (by rfl) (by rfl)

/-! ## Claims C6 and C7: the run lifecycle -/

theorem jsBlocked_append (l1 l2 : List MState) :
    jsBlocked (l1 ++ l2) = (jsBlocked l1 || jsBlocked l2) := by
  simp [jsBlocked]

theorem jsBlocked_nil : jsBlocked [] = false := rfl

theorem jsBlocked_dialog_single (d : String) (t : Nat) :
    jsBlocked [{ mtype := MType.dialog, description := d, tabId := t }] = true := by
  simp [jsBlocked]

/-- C6: for every tool run whose handler sets `captureSnapshot` (and that
reaches the action phase: no result override, a current tab), the
snapshot-capture step is never followed by any other observable event of
the run — in particular it never precedes the action; it is skipped
exactly when a dialog-type modal state is active at the capture check;
and when scripts are not blocked it is the last event of the run — also
when the action threw. -/
theorem capture_after_action (inp : RunInput) (s : SessionS)
    (h1 : inp.hasResultOverride = false) (h2 : s.hasCurrentTab = true)
    (h3 : inp.captureSnapshot = true) :
    (∀ e ∈ (runModel inp s).events.dropLast, e ≠ RunEvent.snapshotCapture)
    ∧ (jsBlocked (runModel inp s).statesAtCapture = true →
        RunEvent.snapshotCapture ∉ (runModel inp s).events)
    ∧ (jsBlocked (runModel inp s).statesAtCapture = false →
        (runModel inp s).events.getLast? = some RunEvent.snapshotCapture) := by
  cases hT : inp.dialogTiming <;>
    cases hA : inp.hasAction <;>
      cases hTh : inp.actionThrows <;>
        by_cases hB : jsBlocked s.modalStates = true <;>
          by_cases hM : s.modalStates = [] <;>
            refine ⟨?_, ?_, ?_⟩ <;>
              simp [runModel, h1, h2, h3, hT, hA, hTh, hB, hM,
                jsBlocked_append, jsBlocked_dialog_single, jsBlocked_nil]

/-- Example run input used to witness claim C6: a throwing action with a
snapshot requested. -/
def runInputEx : RunInput :=
  { hasAction := true, actionThrows := true, actionContent := [1],
    waitForNetwork := false, captureSnapshot := true, hasResultOverride := false,
    dialogTiming := DialogTiming.never, dialogDescription := "alert", dialogTabId := 0 }

/-- Example session used to witness the lifecycle claims. -/
def sessionSEx : SessionS :=
  { tools := [], modalStates := [], hasCurrentTab := true }

theorem capture_after_action_witness :
    (∀ e ∈ (runModel runInputEx sessionSEx).events.dropLast, e ≠ RunEvent.snapshotCapture)
    ∧ (jsBlocked (runModel runInputEx sessionSEx).statesAtCapture = true →
        RunEvent.snapshotCapture ∉ (runModel runInputEx sessionSEx).events)
    ∧ (jsBlocked (runModel runInputEx sessionSEx).statesAtCapture = false →
        (runModel runInputEx sessionSEx).events.getLast? = some RunEvent.snapshotCapture) :=
  capture_after_action runInputEx sessionSEx rfl rfl rfl

mutual
/-- The direct iframe children of one frame's parsed tree, in document
order: for each `iframe ` scalar carrying an extractable ref, the frame
its `frameLocator` reaches (a failing locator for a dangling ref).  These
are exactly the locators the frame's `visit` pushes synchronously — each
`visit` of an iframe scalar enters `_snapshotFrame`, which pushes before
suspending at `ariaSnapshot` (context.ts:518-519) — before any nested
response can be processed. -/
def kidsNode (children : FrameChildren) : YNode → List Frame
  | .scalar s =>
    if hasPfxL "iframe ".data s.data then
      match extractRef s with
      | some ref =>
        match lookupChild children ref with
        | some c => [c]
        | none => [danglingFrame]
      | none => []
    else []
  | .other => []
  | .pair k v => kidsNode children k ++ kidsNode children v
  | .seq items => kidsList children items
  | .ymap items => kidsList children items

/-- List part of `kidsNode`. -/
def kidsList (children : FrameChildren) : YNodeList → List Frame
  | .nil => []
  | .cons h t => kidsNode children h ++ kidsList children t
end

/-- The batch of locators pushed when a frame's `ariaSnapshot` settles: its
direct iframe children in document order, or nothing when `ariaSnapshot`
threw (the parent's catch splices the placeholder without descending). -/
def okKids (F : Frame) : List Frame :=
  match F with
  | .mk ok tree children => if ok then kidsNode children tree else []

theorem weight_sum_split (l : List Frame) :
    (l.map (fun f => 1 + nestedCount f)).sum = l.length + (l.map nestedCount).sum := by
  induction l with
  | nil => rfl
  | cons a t ih =>
    simp only [List.map_cons, List.sum_cons, List.length_cons, ih]
    omega

mutual
/-- The summed work of a node's direct children equals its iframe count. -/
theorem kidsNode_weight (children : FrameChildren) (node : YNode) :
    ((kidsNode children node).map (fun f => 1 + nestedCount f)).sum
      = countNode children node :=
  match node with
  | .scalar s => by
    by_cases hp : hasPfxL "iframe ".data s.data = true
    · cases he : extractRef s with
      | none =>
        rw [kidsNode, countNode]
        simp [hp, he]
      | some ref =>
        rcases hl : lookupChild children ref with _ | c
        · rw [kidsNode, countNode]
          simp only [hp, if_true, he]
          rw [hl]
          have : nestedCount danglingFrame = 0 := by
            rw [danglingFrame, nestedCount, countNode]
          simp [this]
        · rw [kidsNode, countNode]
          simp only [hp, if_true, he]
          rw [hl]
          simp
    · have hp' : hasPfxL "iframe ".data s.data = false := by
        cases hq : hasPfxL "iframe ".data s.data with
        | true => exact absurd hq hp
        | false => rfl
      rw [kidsNode, countNode]
      simp [hp']
  | .other => by
    rw [kidsNode, countNode]
    rfl
  | .pair k v => by
    rw [kidsNode, countNode]
    simp only [List.map_append, List.sum_append]
    rw [kidsNode_weight children k, kidsNode_weight children v]
  | .seq items => by
    rw [kidsNode, countNode]
    exact kidsList_weight children items
  | .ymap items => by
    rw [kidsNode, countNode]
    exact kidsList_weight children items

/-- List part of `kidsNode_weight`. -/
theorem kidsList_weight (children : FrameChildren) (l : YNodeList) :
    ((kidsList children l).map (fun f => 1 + nestedCount f)).sum
      = countList children l :=
  match l with
  | .nil => by
    rw [kidsList, countList]
    rfl
  | .cons hd tl => by
    rw [kidsList, countList]
    simp only [List.map_append, List.sum_append]
    rw [kidsNode_weight children hd, kidsList_weight children tl]
end

/-- The work of a frame's batch: its nested-iframe count when the snapshot
succeeds, nothing when it throws. -/
theorem okKids_weight (F : Frame) :
    ((okKids F).map (fun f => 1 + nestedCount f)).sum
      = if F.ok = true then nestedCount F else 0 := by
  obtain ⟨ok, tree, children⟩ := F
  rw [okKids]
  cases ok with
  | true =>
    simp only [Frame.ok, if_true]
    rw [kidsNode_weight children tree, nestedCount]
  | false =>
    simp [Frame.ok]

mutual
/-- When every capture below a node succeeds, so does every capture below
each of its direct children. -/
theorem allOkNode_kids (children : FrameChildren) (node : YNode)
    (h : allOkNode children node = true) :
    ∀ c ∈ kidsNode children node, allOk c = true :=
  match node with
  | .scalar s => by
    by_cases hp : hasPfxL "iframe ".data s.data = true
    · cases he : extractRef s with
      | none =>
        rw [kidsNode]
        simp [hp, he]
      | some ref =>
        rw [allOkNode] at h
        simp only [hp, if_true, he] at h
        rcases hl : lookupChild children ref with _ | c
        · rw [hl] at h
          simp at h
        · rw [hl] at h
          simp only at h
          rw [kidsNode]
          simp only [hp, if_true, he]
          rw [hl]
          intro x hx
          have : x = c := by simpa using hx
          subst this
          exact h
    · have hp' : hasPfxL "iframe ".data s.data = false := by
        cases hq : hasPfxL "iframe ".data s.data with
        | true => exact absurd hq hp
        | false => rfl
      rw [kidsNode]
      simp [hp']
  | .other => by
    rw [kidsNode]
    simp
  | .pair k v => by
    rw [allOkNode] at h
    simp only [Bool.and_eq_true] at h
    rw [kidsNode]
    intro x hx
    rcases List.mem_append.mp hx with hx | hx
    · exact allOkNode_kids children k h.1 x hx
    · exact allOkNode_kids children v h.2 x hx
  | .seq items => by
    rw [allOkNode] at h
    rw [kidsNode]
    exact allOkList_kids children items h
  | .ymap items => by
    rw [allOkNode] at h
    rw [kidsNode]
    exact allOkList_kids children items h

/-- List part of `allOkNode_kids`. -/
theorem allOkList_kids (children : FrameChildren) (l : YNodeList)
    (h : allOkList children l = true) :
    ∀ c ∈ kidsList children l, allOk c = true :=
  match l with
  | .nil => by
    rw [kidsList]
    simp
  | .cons hd tl => by
    rw [allOkList] at h
    simp only [Bool.and_eq_true] at h
    rw [kidsList]
    intro x hx
    rcases List.mem_append.mp hx with hx | hx
    · exact allOkNode_kids children hd h.1 x hx
    · exact allOkList_kids children tl h.2 x hx
end

/-- A successful frame's batch consists of successful frames, and its size
and total iframe count add up to the frame's own iframe count. -/
theorem allOk_okKids (F : Frame) (h : allOk F = true) :
    (∀ c ∈ okKids F, allOk c = true)
    ∧ (okKids F).length + ((okKids F).map nestedCount).sum = nestedCount F := by
  have hw := okKids_weight F
  have hok : F.ok = true := by
    obtain ⟨ok, tree, children⟩ := F
    rw [allOk] at h
    simp only [Bool.and_eq_true] at h
    simpa [Frame.ok] using h.1
  rw [hok] at hw
  simp only [if_true] at hw
  constructor
  · obtain ⟨ok, tree, children⟩ := F
    rw [allOk] at h
    simp only [Bool.and_eq_true] at h
    rw [okKids]
    have : ok = true := by simpa [Frame.ok] using h.1
    subst this
    simp only [if_true]
    exact allOkNode_kids children tree h.2
  · rw [weight_sum_split] at hw
    omega

theorem sum_eraseIdx (w : Frame → Nat) :
    ∀ (l : List Frame) (i : Nat), i < l.length →
      ((l.eraseIdx i).map w).sum + w (l.getD i danglingFrame) = (l.map w).sum := by
  intro l
  induction l with
  | nil => intro i h; simp at h
  | cons a t ih =>
    intro i h
    cases i with
    | zero =>
      simp only [List.eraseIdx_cons_zero, List.getD_cons_zero, List.map_cons, List.sum_cons]
      omega
    | succ j =>
      have hj : j < t.length := by simpa using h
      have := ih j hj
      simp only [List.eraseIdx_cons_succ, List.map_cons, List.sum_cons, List.getD_cons_succ]
      omega

/-- Model of the order in which one capture pushes frame locators onto
`this._frameLocators`, under concurrency.  `pending` holds the frames
whose `ariaSnapshot` responses are outstanding; `oracle` chooses (modulo
the number of outstanding requests) which response the driver delivers
next.  Delivering frame `F`'s response runs `F`'s `visit` synchronously:
it pushes the locators of all of `F`'s direct iframes in document order
(one atomic batch, `okKids F`) and suspends on their `ariaSnapshot`
calls; a rejected response (`F.ok = false`) pushes nothing, the awaiting
parent splices the placeholder.  A capture of page `f` starts from
`snapRun oracle 0 [f] [f]`: the root locator is pushed synchronously at
context.ts:518 before its own `ariaSnapshot` suspends. -/
def snapRun (oracle : Nat → Nat) (step : Nat) (acc : List Frame) (pending : List Frame) :
    List Frame :=
  match pending with
  | [] => acc
  | p :: ps =>
    let i := oracle step % (p :: ps).length
    let F := (p :: ps).getD i danglingFrame
    snapRun oracle (step + 1) (acc ++ okKids F) ((p :: ps).eraseIdx i ++ okKids F)
termination_by ((pending.map (fun f => 1 + nestedCount f)).sum)
decreasing_by
  have hlen : oracle step % (p :: ps).length < (p :: ps).length :=
    Nat.mod_lt _ (by simp)
  have herase : (((p :: ps).eraseIdx (oracle step % (p :: ps).length)).map
        (fun f => 1 + nestedCount f)).sum
      + (1 + nestedCount ((p :: ps).getD (oracle step % (p :: ps).length) danglingFrame))
      = ((p :: ps).map (fun f => 1 + nestedCount f)).sum :=
    sum_eraseIdx (fun f => 1 + nestedCount f) (p :: ps)
      (oracle step % (p :: ps).length) hlen
  have hkw := okKids_weight ((p :: ps).getD (oracle step % (p :: ps).length) danglingFrame)
  have hk : ((okKids ((p :: ps).getD (oracle step % (p :: ps).length) danglingFrame)).map
      (fun f => 1 + nestedCount f)).sum
      ≤ nestedCount ((p :: ps).getD (oracle step % (p :: ps).length) danglingFrame) := by
    rw [hkw]
    split <;> omega
  simp only [List.map_append, List.sum_append]
  omega

/-- Invariants of the push order, for every schedule: the already-pushed
prefix is preserved, and when every pending capture succeeds the final
list length adds each pending frame's subtree count. -/
theorem snapRun_spec (oracle : Nat → Nat) (pending : List Frame) :
    ∀ (step : Nat) (acc : List Frame),
      (∃ t, snapRun oracle step acc pending = acc ++ t)
      ∧ ((∀ F ∈ pending, allOk F = true) →
          (snapRun oracle step acc pending).length
            = acc.length + (pending.map nestedCount).sum) :=
  match pending with
  | [] => by
    intro step acc
    constructor
    · exact ⟨[], by rw [snapRun]; simp⟩
    · intro _
      rw [snapRun]
      simp
  | p :: ps => by
    intro step acc
    have hlen : oracle step % (p :: ps).length < (p :: ps).length :=
      Nat.mod_lt _ (by simp)
    have hrec := snapRun_spec oracle
      ((p :: ps).eraseIdx (oracle step % (p :: ps).length)
        ++ okKids ((p :: ps).getD (oracle step % (p :: ps).length) danglingFrame))
      (step + 1)
      (acc ++ okKids ((p :: ps).getD (oracle step % (p :: ps).length) danglingFrame))
    constructor
    · obtain ⟨t, ht⟩ := hrec.1
      refine ⟨okKids ((p :: ps).getD (oracle step % (p :: ps).length) danglingFrame) ++ t, ?_⟩
      rw [snapRun]
      rw [ht]
      simp
    · intro hall
      have hFmem : (p :: ps).getD (oracle step % (p :: ps).length) danglingFrame ∈ (p :: ps) := by
        rw [List.getD_eq_getElem (p :: ps) danglingFrame hlen]
        exact List.getElem_mem hlen
      have hFok := hall _ hFmem
      obtain ⟨hkall, hkcount⟩ := allOk_okKids _ hFok
      have hall2 : ∀ F ∈ (p :: ps).eraseIdx (oracle step % (p :: ps).length)
          ++ okKids ((p :: ps).getD (oracle step % (p :: ps).length) danglingFrame),
          allOk F = true := by
        intro F hF
        rcases List.mem_append.mp hF with hF | hF
        · exact hall F (List.mem_of_mem_eraseIdx hF)
        · exact hkall F hF
      have hlen2 := hrec.2 hall2
      rw [snapRun]
      rw [hlen2]
      have herase := sum_eraseIdx nestedCount (p :: ps) (oracle step % (p :: ps).length) hlen
      simp only [List.length_append, List.map_append, List.sum_append]
      omega
termination_by ((pending.map (fun f => 1 + nestedCount f)).sum)
decreasing_by
  have hlen : oracle step % (p :: ps).length < (p :: ps).length :=
    Nat.mod_lt _ (by simp)
  have herase : (((p :: ps).eraseIdx (oracle step % (p :: ps).length)).map
        (fun f => 1 + nestedCount f)).sum
      + (1 + nestedCount ((p :: ps).getD (oracle step % (p :: ps).length) danglingFrame))
      = ((p :: ps).map (fun f => 1 + nestedCount f)).sum :=
    sum_eraseIdx (fun f => 1 + nestedCount f) (p :: ps)
      (oracle step % (p :: ps).length) hlen
  have hkw := okKids_weight ((p :: ps).getD (oracle step % (p :: ps).length) danglingFrame)
  have hk : ((okKids ((p :: ps).getD (oracle step % (p :: ps).length) danglingFrame)).map
      (fun f => 1 + nestedCount f)).sum
      ≤ nestedCount ((p :: ps).getD (oracle step % (p :: ps).length) danglingFrame) := by
    rw [hkw]
    split <;> omega
  simp only [List.map_append, List.sum_append]
  omega

/-- C1 amended: under every order in which the driver's aria-snapshot
responses arrive, a capture of a page on which every nested capture
succeeds pushes exactly `nestedCount f + 1` frame locators, with the
root's locator first (index 0). -/
theorem snapshot_frame_count (f : Frame) (oracle : Nat → Nat) (h : allOk f = true) :
    (∃ t, snapRun oracle 0 [f] [f] = f :: t)
    ∧ (snapRun oracle 0 [f] [f]).length = nestedCount f + 1 := by
  obtain ⟨hpre, hlen⟩ := snapRun_spec oracle [f] 0 [f]
  constructor
  · obtain ⟨t, ht⟩ := hpre
    exact ⟨t, by simpa using ht⟩
  · have hl := hlen (by
      intro F hF
      have : F = f := by simpa using hF
      subst this
      exact h)
    rw [hl]
    simp
    omega

theorem snapRun_no_kids (oracle : Nat → Nat) (pending : List Frame)
    (h : ∀ F ∈ pending, okKids F = []) :
    ∀ (step : Nat) (acc : List Frame), snapRun oracle step acc pending = acc :=
  match pending with
  | [] => by
    intro step acc
    rw [snapRun]
  | p :: ps => by
    intro step acc
    have hlen : oracle step % (p :: ps).length < (p :: ps).length :=
      Nat.mod_lt _ (by simp)
    have hF : (p :: ps).getD (oracle step % (p :: ps).length) danglingFrame ∈ (p :: ps) := by
      rw [List.getD_eq_getElem (p :: ps) danglingFrame hlen]
      exact List.getElem_mem hlen
    have hk := h _ hF
    have h2 : ∀ F ∈ (p :: ps).eraseIdx (oracle step % (p :: ps).length), okKids F = [] :=
      fun F hFm => h F (List.mem_of_mem_eraseIdx hFm)
    rw [snapRun, hk]
    simp only [List.append_nil]
    exact snapRun_no_kids oracle ((p :: ps).eraseIdx (oracle step % (p :: ps).length))
      h2 (step + 1) acc
termination_by ((pending.map (fun f => 1 + nestedCount f)).sum)
decreasing_by
  have hlen : oracle step % (p :: ps).length < (p :: ps).length :=
    Nat.mod_lt _ (by simp)
  have herase : (((p :: ps).eraseIdx (oracle step % (p :: ps).length)).map
        (fun f => 1 + nestedCount f)).sum
      + (1 + nestedCount ((p :: ps).getD (oracle step % (p :: ps).length) danglingFrame))
      = ((p :: ps).map (fun f => 1 + nestedCount f)).sum :=
    sum_eraseIdx (fun f => 1 + nestedCount f) (p :: ps)
      (oracle step % (p :: ps).length) hlen
  omega

/-- A nested frame whose capture succeeds and whose tree is a single leaf
scalar `"leafC"` — the C of the C1 counterexample. -/
def frameC : Frame := Frame.mk true (YNode.scalar "leafC") FrameChildren.nil

/-- A leaf sibling frame, tree `"leafB"`. -/
def frameB : Frame := Frame.mk true (YNode.scalar "leafB") FrameChildren.nil

/-- A frame containing one nested iframe (`frameC`). -/
def frameA : Frame :=
  Frame.mk true (YNode.scalar "iframe [ref=c1]")
    (FrameChildren.cons "c1" frameC FrameChildren.nil)

/-- The C1 counterexample page: sibling iframes A and B at the top level,
where A contains the nested iframe C. -/
def frameRoot : Frame :=
  Frame.mk true
    (YNode.seq (YNodeList.cons (YNode.scalar "iframe [ref=a1]")
      (YNodeList.cons (YNode.scalar "iframe [ref=b1]") YNodeList.nil)))
    (FrameChildren.cons "a1" frameA (FrameChildren.cons "b1" frameB FrameChildren.nil))

/-- A readable label for a frame (its tree's scalar text, empty for other
trees), used to compare frame orders on the concrete counterexample. -/
def frameLabel (f : Frame) : String :=
  match f with
  | .mk _ (YNode.scalar s) _ => s
  | _ => ""

/-- On the counterexample page the push order is the same under every
response schedule: the root's synchronous visit pushes A then B, and C is
pushed only when A's response arrives — whether before or after B's. -/
theorem snapshot_order_all_schedules (oracle : Nat → Nat) :
    (snapRun oracle 0 [frameRoot] [frameRoot]).map frameLabel
      = ["", "iframe [ref=c1]", "leafB", "leafC"] := by
  have hkr : okKids frameRoot = [frameA, frameB] := by
    have ha : extractRef "iframe [ref=a1]" = some "a1" := by rfl
    have hb : extractRef "iframe [ref=b1]" = some "b1" := by rfl
    simp +decide [okKids, frameRoot, kidsNode, kidsList, ha, hb, lookupChild]
  have hka : okKids frameA = [frameC] := by
    have hc : extractRef "iframe [ref=c1]" = some "c1" := by rfl
    simp +decide [okKids, frameA, kidsNode, kidsList, hc, lookupChild]
  have hkb : okKids frameB = [] := by
    simp +decide [okKids, frameB, kidsNode]
  have hkc : okKids frameC = [] := by
    simp +decide [okKids, frameC, kidsNode]
  rw [snapRun]
  simp [Nat.mod_one, hkr]
  have h1 : oracle 1 % 2 = 0 ∨ oracle 1 % 2 = 1 := by omega
  have hnkBC : ∀ F ∈ [frameB, frameC], okKids F = [] := by
    intro F hF
    rcases List.mem_cons.mp hF with hF | hF
    · subst hF
      exact hkb
    · have : F = frameC := by simpa using hF
      subst this
      exact hkc
  have hnkC : ∀ F ∈ [frameC], okKids F = [] := by
    intro F hF
    have : F = frameC := by simpa using hF
    subst this
    exact hkc
  rcases h1 with h1 | h1
  · rw [snapRun]
    simp [h1, hka]
    rw [snapRun_no_kids oracle [frameB, frameC] hnkBC]
    simp [frameLabel, frameRoot, frameA, frameB, frameC]
  · rw [snapRun]
    simp [h1, hkb]
    rw [snapRun]
    simp [Nat.mod_one, hka]
    rw [snapRun_no_kids oracle [frameC] hnkC]
    simp [frameLabel, frameRoot, frameA, frameB, frameC]

/-- C1 fails as stated: on the counterexample page the program pushes, under
every response schedule, the order [root, A, B, C] — the root's visit
pushes both of its direct iframes synchronously before any of their
nested captures — whereas depth-first first-encountered discovery order is
[root, A, C, B].  The FIFO schedule exhibits it concretely. -/
theorem snapshot_order_counterexample :
    (snapRun (fun _ => 0) 0 [frameRoot] [frameRoot]).map frameLabel
      = ["", "iframe [ref=c1]", "leafB", "leafC"]
    ∧ (dfsFrames frameRoot).map frameLabel
      = ["", "iframe [ref=c1]", "leafC", "leafB"]
    ∧ (snapRun (fun _ => 0) 0 [frameRoot] [frameRoot]).map frameLabel
        ≠ (dfsFrames frameRoot).map frameLabel := by
  have h1 := snapshot_order_all_schedules (fun _ => 0)
  have ha : extractRef "iframe [ref=a1]" = some "a1" := by rfl
  have hb : extractRef "iframe [ref=b1]" = some "b1" := by rfl
  have hc : extractRef "iframe [ref=c1]" = some "c1" := by rfl
  have h2 : (dfsFrames frameRoot).map frameLabel
      = ["", "iframe [ref=c1]", "leafC", "leafB"] := by
    simp +decide [dfsFrames, dfsNode, dfsList, frameRoot, frameA, frameB, frameC,
      frameLabel, lookupChild, ha, hb, hc]
  refine ⟨h1, h2, ?_⟩
  rw [h1, h2]
  decide

/-- Example frame tree witnessing the amended C1: a page with an iframe
that itself contains a nested iframe (N = 2). -/
def frameEx : Frame :=
  Frame.mk true
    (YNode.ymap (YNodeList.cons
      (YNode.pair (YNode.scalar "iframe [ref=e1]") YNode.other)
      YNodeList.nil))
    (FrameChildren.cons "e1"
      (Frame.mk true (YNode.scalar "iframe [ref=e2]")
        (FrameChildren.cons "e2" (Frame.mk true (YNode.scalar "text") FrameChildren.nil)
          FrameChildren.nil))
      FrameChildren.nil)

theorem snapshot_frame_count_witness :
    (∃ t, snapRun (fun _ => 0) 0 [frameEx] [frameEx] = frameEx :: t)
    ∧ (snapRun (fun _ => 0) 0 [frameEx] [frameEx]).length = nestedCount frameEx + 1 :=
  snapshot_frame_count frameEx (fun _ => 0) (by
    have he1 : extractRef "iframe [ref=e1]" = some "e1" := by rfl
    have he2 : extractRef "iframe [ref=e2]" = some "e2" := by rfl
    simp +decide [frameEx, allOk, allOkNode, allOkList, lookupChild, he1, he2])
